import Mathlib

/-
Verification of the `reload` library (a Go package providing a
notifier/reloader hot-reload manager).

Shallow embedding notes:

* Go errors are modelled by the inductive type `Err`; `fmt.Errorf("...: %w", e)`
  wrappings become explicit constructors (`Err.groupPriority`,
  `Err.notifierFailed`, `Err.reloadProcessFailed`).
* A `Reloader` is modelled by its observable behaviour for one reload cycle:
  a function from the trigger id to the error it returns (`none` = nil error).
* The Go map `map[int]reloaderGroup` is modelled as an association list
  `List (Int × ReloaderGroup)`; its non-deterministic iteration order in
  `reloadGroups` is modelled by quantifying over an arbitrary materialisation
  `iter` that is a permutation of the stored values.
* `sort.SliceStable` is embedded as the stable insertion sort
  `sortByPriority`.
* Inside `reloadGroup` all member goroutines are spawned, and the wait loop
  observes their results in a non-deterministic arrival order; this order is
  modelled by a parameter `order` (a permutation of the member indices), and
  a schedule `sched` assigns an arrival order to each priority.
* Reloader invocations are recorded as trace events
  `(group priority, reloader index, trigger id)`.
* `Run`'s main loop is modelled two ways: `runLoop` processes the sequence of
  events the loop's select statement observes (`RunInput.signal` for a value
  received from the signal channel, `RunInput.cancelled` for ctx.Done), and
  the small-step relation `Step` additionally models the buffered signal
  channel and the interleaving of notifier deliveries with an in-flight
  reload cycle.
-/

/-- Errors produced by the library. `base` stands for an arbitrary error value
coming from a reloader or notifier; the other constructors model the
`fmt.Errorf` context wrappings in `manager.go`. -/
inductive Err where
  | base : String → Err
  | groupPriority : Int → Err → Err
  | notifierFailed : Err → Err
  | reloadProcessFailed : Err → Err
deriving DecidableEq

/-- A reloader's behaviour during one cycle: trigger id ↦ returned error
(`none` is Go's nil error). -/
abbrev Reloader := String → Option Err

/-- Mirrors Go `reloaderGroup`: a priority and the member reloaders in
registration order. -/
structure ReloaderGroup where
  priority : Int
  reloaders : List Reloader

/-- Mirrors Go `Manager`. `reloaders` is the `map[int]reloaderGroup` as an
association list; `notifiers` keeps only the length of the notifier slice
(used as the signal channel capacity); `lock` is the atomic trylock flag
(`false` = unlockedState, `true` = lockedState). -/
structure Manager where
  reloaders : List (Int × ReloaderGroup)
  notifiers : Nat
  lock : Bool

/-- Mirrors `NewManager`. -/
def NewManager : Manager := { reloaders := [], notifiers := 0, lock := false }

/-- Mirrors `Manager.On`: appends one notifier (only the count is kept). -/
def Manager.On (m : Manager) : Manager := { m with notifiers := m.notifiers + 1 }

/-- Go map read `m.reloaders[priority]`: look the key up in the association
list. -/
def mapGet : List (Int × ReloaderGroup) → Int → Option ReloaderGroup
  | [], _ => none
  | kv :: rest, p => if kv.1 == p then some kv.2 else mapGet rest p

/-- Go map write `m.reloaders[priority] = rg`: replace the entry when the key
is present, otherwise add a new entry. -/
def mapSet : List (Int × ReloaderGroup) → Int → ReloaderGroup → List (Int × ReloaderGroup)
  | [], p, rg => [(p, rg)]
  | kv :: rest, p, rg => if kv.1 == p then (p, rg) :: rest else kv :: mapSet rest p rg

/-- Mirrors `Manager.Add`: look the group up, lazily create it with the given
priority, append the reloader, store the group back. -/
def Manager.Add (m : Manager) (priority : Int) (r : Reloader) : Manager :=
  let rg := (mapGet m.reloaders priority).getD { priority := priority, reloaders := [] }
  { m with reloaders := mapSet m.reloaders priority { rg with reloaders := rg.reloaders ++ [r] } }

/-- A sequence of `Add` calls, in call order. -/
def addAll (m : Manager) (calls : List (Int × Reloader)) : Manager :=
  calls.foldl (fun acc c => acc.Add c.1 c.2) m

/-- The reloaders added with priority `p`, in the order of the `Add` calls
(this phrases the specification side of the map invariant). -/
def addedWith (p : Int) (calls : List (Int × Reloader)) : List Reloader :=
  (calls.filter (fun c => c.1 == p)).map Prod.snd

/-- The map invariant of `Manager.reloaders`: keys are unique and every stored
group's priority field equals its key. -/
def GoodMap (rs : List (Int × ReloaderGroup)) : Prop :=
  (rs.map Prod.fst).Nodup ∧ ∀ kv ∈ rs, kv.2.priority = kv.1

/-- A reloader invocation event: (group priority, reloader index, trigger id). -/
abbrev Event := Int × Nat × String

/-- The invocation events of one group: every member goroutine is started. -/
def groupEvents (rg : ReloaderGroup) (id : String) : List Event :=
  (List.range rg.reloaders.length).map (fun i => (rg.priority, i, id))

/-- The wait loop of `reloadGroup`: results arrive in the order given by
`order`; the first non-nil error is returned, `none` if all results are nil. -/
def firstError (results : List (Option Err)) : List Nat → Option Err
  | [] => none
  | i :: rest =>
    match results.getD i none with
    | some e => some e
    | none => firstError results rest

/-- Mirrors `Manager.reloadGroup`: spawn all member reloaders (the events),
then wait for the results in arrival order `order`, stopping at the first
error. -/
def reloadGroup (rg : ReloaderGroup) (id : String) (order : List Nat) :
    List Event × Option Err :=
  (groupEvents rg id, firstError (rg.reloaders.map (fun r => r id)) order)

/-- Whether some member of the group returns a non-nil error for `id`. -/
def groupFails (rg : ReloaderGroup) (id : String) : Bool :=
  rg.reloaders.any (fun r => (r id).isSome)

/-- Stable insertion used by `sortByPriority`. -/
def insertByPriority (a : ReloaderGroup) : List ReloaderGroup → List ReloaderGroup
  | [] => [a]
  | g :: gs => if a.priority ≤ g.priority then a :: g :: gs else g :: insertByPriority a gs

/-- Embeds the `sort.SliceStable` call of `reloadGroups`: a stable sort of the
groups by ascending priority. -/
def sortByPriority (l : List ReloaderGroup) : List ReloaderGroup :=
  l.foldr insertByPriority []

/-- The sequential loop of `reloadGroups` over the sorted groups: each group
runs to completion before the next starts; the first failing group stops the
loop and its error is wrapped with the group's priority. -/
def reloadGroupsLoop (id : String) (sched : Int → List Nat) :
    List ReloaderGroup → List Event × Option Err
  | [] => ([], none)
  | rg :: rest =>
    let r := reloadGroup rg id (sched rg.priority)
    match r.2 with
    | some e => (r.1, some (Err.groupPriority rg.priority e))
    | none =>
      let rr := reloadGroupsLoop id sched rest
      (r.1 ++ rr.1, rr.2)

/-- Mirrors `Manager.reloadGroups`. Returns the manager after the call (the
trylock is released by the deferred store), the trace of reloader invocations,
and the returned error. `iter` is the (arbitrary) iteration order of the Go
map, `sched` the per-priority arrival order of group member results. -/
def reloadGroups (m : Manager) (id : String) (iter : List ReloaderGroup)
    (sched : Int → List Nat) : Manager × List Event × Option Err :=
  if m.reloaders.isEmpty then (m, [], none)
  else if m.lock then (m, [], none)
  else
    let res := reloadGroupsLoop id sched (sortByPriority iter)
    ({ m with lock := false }, res.1, res.2)

/-- One observation of the select statement in `Run`'s main loop: either a
notifier result received from the signal channel, or ctx.Done. -/
inductive RunInput where
  | signal : String → Option Err → RunInput
  | cancelled : RunInput

/-- Mirrors `Run`'s main loop, given the sequence of observations its select
statement makes. The second component is `none` while the loop would still be
running, `some none` when `Run` returned nil, and `some (some e)` when `Run`
returned the error `e`. The first component is the trace of reloader
invocations. -/
def runLoop (iter : List ReloaderGroup) (sched : Int → List Nat) :
    Manager → List RunInput → List Event × Option (Option Err)
  | _, [] => ([], none)
  | _, RunInput.cancelled :: _ => ([], some none)
  | _, RunInput.signal _ (some e) :: _ => ([], some (some (Err.notifierFailed e)))
  | m, RunInput.signal id none :: rest =>
    match reloadGroups m id iter sched with
    | (_, tr, some e) => (tr, some (some (Err.reloadProcessFailed e)))
    | (m2, tr, none) =>
      let r := runLoop iter sched m2 rest
      (tr ++ r.1, r.2)

/-- The channel wrapped by the channel-based notifier adapter, modelled by the
stream of values that will be received from it. -/
abbrev NotifierChan := List String

/-- Mirrors `NotifierChan.Notify`: one blocking receive (`none` when the
channel has no value to deliver, i.e. the call blocks), returning the received
value with a nil error together with the rest of the stream. -/
def NotifierChan.Notify : NotifierChan → Option ((String × Option Err) × NotifierChan)
  | [] => none
  | v :: rest => some ((v, none), rest)

/- Lemmas about the wait loop of `reloadGroup`. -/

theorem firstError_eq_none_iff (results : List (Option Err)) (order : List Nat) :
    firstError results order = none ↔ ∀ i ∈ order, results.getD i none = none := by
  induction order with
  | nil => simp [firstError]
  | cons i rest ih =>
    rw [List.forall_mem_cons]
    simp only [firstError]
    cases h : results.getD i none with
    | none => rw [ih]; simp
    | some e => simp

theorem firstError_eq_some (results : List (Option Err)) (order : List Nat) (e : Err)
    (h : firstError results order = some e) :
    ∃ i ∈ order, results.getD i none = some e := by
  induction order with
  | nil => simp [firstError] at h
  | cons i rest ih =>
    simp only [firstError] at h
    cases hh : results.getD i none with
    | none =>
      simp only [hh] at h
      obtain ⟨j, hj, hje⟩ := ih h
      exact ⟨j, List.mem_cons.mpr (Or.inr hj), hje⟩
    | some e2 =>
      simp only [hh] at h
      obtain rfl : e2 = e := Option.some.inj h
      exact ⟨i, List.mem_cons.mpr (Or.inl rfl), hh⟩

theorem firstError_group_none_iff (rg : ReloaderGroup) (id : String) (order : List Nat)
    (hperm : order.Perm (List.range rg.reloaders.length)) :
    (firstError (rg.reloaders.map (fun r => r id)) order = none) ↔ groupFails rg id = false := by
  rw [firstError_eq_none_iff]
  constructor
  · intro h
    rw [groupFails, List.any_eq_false]
    intro r hr
    obtain ⟨i, hi, hgi⟩ := List.getElem_of_mem hr
    have hio : i ∈ order := hperm.mem_iff.mpr (List.mem_range.mpr hi)
    have h2 := h i hio
    rw [List.getD_eq_getElem _ _ (by simpa using hi), List.getElem_map, hgi] at h2
    simp [h2]
  · intro h i hi
    have hir : i < rg.reloaders.length := List.mem_range.mp (hperm.mem_iff.mp hi)
    rw [List.getD_eq_getElem _ _ (by simpa using hir), List.getElem_map]
    have h2 := (List.any_eq_false.mp h) rg.reloaders[i] (List.getElem_mem hir)
    simpa using h2

theorem firstError_group_some (rg : ReloaderGroup) (id : String) (order : List Nat)
    (hperm : order.Perm (List.range rg.reloaders.length)) (e : Err)
    (h : firstError (rg.reloaders.map (fun r => r id)) order = some e) :
    ∃ r ∈ rg.reloaders, r id = some e := by
  obtain ⟨i, hio, hie⟩ := firstError_eq_some _ _ _ h
  have hir : i < rg.reloaders.length := List.mem_range.mp (hperm.mem_iff.mp hio)
  rw [List.getD_eq_getElem _ _ (by simpa using hir), List.getElem_map] at hie
  exact ⟨rg.reloaders[i], List.getElem_mem hir, hie⟩

/- Lemmas about the embedded stable sort. -/

theorem insertByPriority_perm (a : ReloaderGroup) (l : List ReloaderGroup) :
    (insertByPriority a l).Perm (a :: l) := by
  induction l with
  | nil => exact List.Perm.refl _
  | cons g gs ih =>
    simp only [insertByPriority]
    split
    · exact List.Perm.refl _
    · exact (ih.cons g).trans (List.Perm.swap a g gs)

theorem sortByPriority_perm (l : List ReloaderGroup) : (sortByPriority l).Perm l := by
  induction l with
  | nil => exact List.Perm.refl _
  | cons x xs ih =>
    have h1 : sortByPriority (x :: xs) = insertByPriority x (sortByPriority xs) := rfl
    rw [h1]
    exact (insertByPriority_perm x (sortByPriority xs)).trans (ih.cons x)

theorem mem_insertByPriority (x a : ReloaderGroup) (l : List ReloaderGroup) :
    x ∈ insertByPriority a l ↔ x = a ∨ x ∈ l := by
  rw [(insertByPriority_perm a l).mem_iff, List.mem_cons]

theorem pairwise_insertByPriority (a : ReloaderGroup) (l : List ReloaderGroup)
    (h : l.Pairwise (fun x y => x.priority ≤ y.priority)) :
    (insertByPriority a l).Pairwise (fun x y => x.priority ≤ y.priority) := by
  induction l with
  | nil => simp [insertByPriority]
  | cons g gs ih =>
    obtain ⟨hg, hgs⟩ := List.pairwise_cons.mp h
    simp only [insertByPriority]
    split
    · rename_i hle
      refine List.pairwise_cons.mpr ⟨?_, h⟩
      intro y hy
      rcases List.mem_cons.mp hy with rfl | hy2
      · exact hle
      · exact hle.trans (hg y hy2)
    · rename_i hgt
      have hga : g.priority ≤ a.priority := le_of_not_le hgt
      refine List.pairwise_cons.mpr ⟨?_, ih hgs⟩
      intro y hy
      rcases (mem_insertByPriority y a gs).mp hy with rfl | hy2
      · exact hga
      · exact hg y hy2

theorem sortByPriority_pairwise (l : List ReloaderGroup) :
    (sortByPriority l).Pairwise (fun x y => x.priority ≤ y.priority) := by
  induction l with
  | nil => simp [sortByPriority]
  | cons x xs ih =>
    have h1 : sortByPriority (x :: xs) = insertByPriority x (sortByPriority xs) := rfl
    rw [h1]
    exact pairwise_insertByPriority x _ ih

theorem pairwise_lt_of_sorted_nodup (l : List ReloaderGroup)
    (hs : l.Pairwise (fun x y => x.priority ≤ y.priority))
    (hn : (l.map ReloaderGroup.priority).Nodup) :
    l.Pairwise (fun x y => x.priority < y.priority) := by
  have hne : l.Pairwise (fun x y => x.priority ≠ y.priority) := List.pairwise_map.mp hn
  exact (hs.and hne).imp (fun h => lt_of_le_of_ne h.1 h.2)

/- Lemmas about the sequential group loop of `reloadGroups`. -/

theorem groupEvents_fst (rg : ReloaderGroup) (id : String) :
    ∀ ev ∈ groupEvents rg id, ev.1 = rg.priority := by
  intro ev hev
  obtain ⟨i, _, hfe⟩ := List.mem_map.mp hev
  rw [← hfe]

theorem groupEvents_mem (rg : ReloaderGroup) (id : String) (i : Nat)
    (h : i < rg.reloaders.length) : ((rg.priority, i, id) : Event) ∈ groupEvents rg id :=
  List.mem_map.mpr ⟨i, List.mem_range.mpr h, rfl⟩

theorem pairwise_le_of_all_eq (c : Int) (L : List Int) (h : ∀ x ∈ L, x = c) :
    L.Pairwise (· ≤ ·) := by
  induction L with
  | nil => exact List.Pairwise.nil
  | cons x xs ih =>
    refine List.pairwise_cons.mpr ⟨?_, ih (fun y hy => h y (List.mem_cons.mpr (Or.inr hy)))⟩
    intro y hy
    rw [h x (by simp), h y (List.mem_cons.mpr (Or.inr hy))]

theorem loop_cons_some (id : String) (sched : Int → List Nat) (rg : ReloaderGroup)
    (rest : List ReloaderGroup) (e : Err)
    (h : firstError (rg.reloaders.map (fun r => r id)) (sched rg.priority) = some e) :
    reloadGroupsLoop id sched (rg :: rest)
      = (groupEvents rg id, some (Err.groupPriority rg.priority e)) := by
  simp only [reloadGroupsLoop, reloadGroup, h]

theorem loop_cons_none (id : String) (sched : Int → List Nat) (rg : ReloaderGroup)
    (rest : List ReloaderGroup)
    (h : firstError (rg.reloaders.map (fun r => r id)) (sched rg.priority) = none) :
    reloadGroupsLoop id sched (rg :: rest)
      = (groupEvents rg id ++ (reloadGroupsLoop id sched rest).1,
         (reloadGroupsLoop id sched rest).2) := by
  simp only [reloadGroupsLoop, reloadGroup, h]

theorem loop_trace_mem (id : String) (sched : Int → List Nat) :
    ∀ l : List ReloaderGroup, ∀ ev ∈ (reloadGroupsLoop id sched l).1,
      ∃ rg ∈ l, ∃ i, i < rg.reloaders.length ∧ ev = (rg.priority, i, id) := by
  intro l
  induction l with
  | nil => intro ev hev; simp [reloadGroupsLoop] at hev
  | cons rg rest ih =>
    intro ev hev
    cases h : firstError (rg.reloaders.map (fun r => r id)) (sched rg.priority) with
    | some e =>
      rw [loop_cons_some id sched rg rest e h] at hev
      obtain ⟨i, hi, hfe⟩ := List.mem_map.mp hev
      exact ⟨rg, List.mem_cons.mpr (Or.inl rfl), i, List.mem_range.mp hi, hfe.symm⟩
    | none =>
      rw [loop_cons_none id sched rg rest h] at hev
      rcases List.mem_append.mp hev with h1 | h2
      · obtain ⟨i, hi, hfe⟩ := List.mem_map.mp h1
        exact ⟨rg, List.mem_cons.mpr (Or.inl rfl), i, List.mem_range.mp hi, hfe.symm⟩
      · obtain ⟨rg2, hrg2, i, hi, hfe⟩ := ih ev h2
        exact ⟨rg2, List.mem_cons.mpr (Or.inr hrg2), i, hi, hfe⟩

theorem loop_trace_pairwise (id : String) (sched : Int → List Nat) :
    ∀ l : List ReloaderGroup, l.Pairwise (fun x y => x.priority ≤ y.priority) →
      ((reloadGroupsLoop id sched l).1.map (fun ev => ev.1)).Pairwise (· ≤ ·) := by
  intro l
  induction l with
  | nil => intro _; simp [reloadGroupsLoop]
  | cons rg rest ih =>
    intro hp
    obtain ⟨h1, h2⟩ := List.pairwise_cons.mp hp
    have hconst : ∀ x ∈ (groupEvents rg id).map (fun ev => ev.1), x = rg.priority := by
      intro x hx
      obtain ⟨ev, hev, hfe⟩ := List.mem_map.mp hx
      rw [← hfe]
      exact groupEvents_fst rg id ev hev
    cases h : firstError (rg.reloaders.map (fun r => r id)) (sched rg.priority) with
    | some e =>
      rw [loop_cons_some id sched rg rest e h]
      exact pairwise_le_of_all_eq rg.priority _ hconst
    | none =>
      rw [loop_cons_none id sched rg rest h]
      rw [List.map_append, List.pairwise_append]
      refine ⟨pairwise_le_of_all_eq rg.priority _ hconst, ih h2, ?_⟩
      intro a ha b hb
      rw [hconst a ha]
      obtain ⟨ev2, hev2, hfe2⟩ := List.mem_map.mp hb
      obtain ⟨rg2, hrg2, i, _, hev⟩ := loop_trace_mem id sched rest ev2 hev2
      rw [← hfe2, hev]
      exact h1 rg2 hrg2

theorem loop_err_none_iff (id : String) (sched : Int → List Nat) :
    ∀ l : List ReloaderGroup,
      (∀ rg ∈ l, (sched rg.priority).Perm (List.range rg.reloaders.length)) →
      ((reloadGroupsLoop id sched l).2 = none ↔ ∀ rg ∈ l, groupFails rg id = false) := by
  intro l
  induction l with
  | nil => intro _; simp [reloadGroupsLoop]
  | cons rg rest ih =>
    intro hs
    have hrg := hs rg (List.mem_cons.mpr (Or.inl rfl))
    have hrest := fun g hg => hs g (List.mem_cons.mpr (Or.inr hg))
    rw [List.forall_mem_cons]
    cases h : firstError (rg.reloaders.map (fun r => r id)) (sched rg.priority) with
    | some e =>
      rw [loop_cons_some id sched rg rest e h]
      have hf : ¬ groupFails rg id = false := by
        intro hgf
        have h0 := (firstError_group_none_iff rg id _ hrg).mpr hgf
        rw [h0] at h
        cases h
      simp [hf]
    | none =>
      rw [loop_cons_none id sched rg rest h]
      have hok : groupFails rg id = false := (firstError_group_none_iff rg id _ hrg).mp h
      rw [ih hrest]
      simp [hok]

theorem loop_err_elim (id : String) (sched : Int → List Nat) :
    ∀ l : List ReloaderGroup,
      (∀ rg ∈ l, (sched rg.priority).Perm (List.range rg.reloaders.length)) →
      ∀ er : Err, (reloadGroupsLoop id sched l).2 = some er →
      ∃ p e, er = Err.groupPriority p e
        ∧ ∃ rg ∈ l, rg.priority = p ∧ ∃ r ∈ rg.reloaders, r id = some e := by
  intro l
  induction l with
  | nil => intro _ er h; simp [reloadGroupsLoop] at h
  | cons rg rest ih =>
    intro hs er h
    cases hh : firstError (rg.reloaders.map (fun r => r id)) (sched rg.priority) with
    | some e =>
      rw [loop_cons_some id sched rg rest e hh] at h
      obtain rfl : Err.groupPriority rg.priority e = er := Option.some.inj h
      obtain ⟨r, hr, hre⟩ :=
        firstError_group_some rg id _ (hs rg (List.mem_cons.mpr (Or.inl rfl))) e hh
      exact ⟨rg.priority, e, rfl, rg, List.mem_cons.mpr (Or.inl rfl), rfl, r, hr, hre⟩
    | none =>
      rw [loop_cons_none id sched rg rest hh] at h
      obtain ⟨p, e, hpe, rg2, hrg2, hp2, hr⟩ :=
        ih (fun g hg => hs g (List.mem_cons.mpr (Or.inr hg))) er h
      exact ⟨p, e, hpe, rg2, List.mem_cons.mpr (Or.inr hrg2), hp2, hr⟩

theorem loop_none_complete (id : String) (sched : Int → List Nat) :
    ∀ l : List ReloaderGroup, (reloadGroupsLoop id sched l).2 = none →
      ∀ rg ∈ l, ∀ i, i < rg.reloaders.length →
        ((rg.priority, i, id) : Event) ∈ (reloadGroupsLoop id sched l).1 := by
  intro l
  induction l with
  | nil => intro _ rg hmem; simp at hmem
  | cons g rest ih =>
    intro hnone rg hmem i hi
    cases hh : firstError (g.reloaders.map (fun r => r id)) (sched g.priority) with
    | some e =>
      rw [loop_cons_some id sched g rest e hh] at hnone
      cases hnone
    | none =>
      rw [loop_cons_none id sched g rest hh] at hnone
      rw [loop_cons_none id sched g rest hh]
      rcases List.mem_cons.mp hmem with rfl | hmem2
      · exact List.mem_append.mpr (Or.inl (groupEvents_mem rg id i hi))
      · exact List.mem_append.mpr (Or.inr (ih hnone rg hmem2 i hi))

theorem loop_complete (id : String) (sched : Int → List Nat) :
    ∀ l : List ReloaderGroup,
      l.Pairwise (fun x y => x.priority < y.priority) →
      (∀ rg ∈ l, (sched rg.priority).Perm (List.range rg.reloaders.length)) →
      ∀ rg ∈ l,
      (∃ ev ∈ (reloadGroupsLoop id sched l).1, rg.priority < ev.1) →
      (∀ i, i < rg.reloaders.length →
          ((rg.priority, i, id) : Event) ∈ (reloadGroupsLoop id sched l).1)
        ∧ groupFails rg id = false := by
  intro l
  induction l with
  | nil => intro _ _ rg hmem _; simp at hmem
  | cons g rest ih =>
    intro hlt hs rg hmem hafter
    obtain ⟨hg1, hg2⟩ := List.pairwise_cons.mp hlt
    cases hh : firstError (g.reloaders.map (fun r => r id)) (sched g.priority) with
    | some e =>
      exfalso
      obtain ⟨ev, hev, hlt2⟩ := hafter
      rw [loop_cons_some id sched g rest e hh] at hev
      have hev1 : ev.1 = g.priority := groupEvents_fst g id ev hev
      rcases List.mem_cons.mp hmem with rfl | hmem2
      · rw [hev1] at hlt2
        exact lt_irrefl _ hlt2
      · rw [hev1] at hlt2
        exact lt_asymm (hg1 rg hmem2) hlt2
    | none =>
      rcases List.mem_cons.mp hmem with rfl | hmem2
      · refine ⟨?_, (firstError_group_none_iff rg id _
          (hs rg (List.mem_cons.mpr (Or.inl rfl)))).mp hh⟩
        intro i hi
        rw [loop_cons_none id sched rg rest hh]
        exact List.mem_append.mpr (Or.inl (groupEvents_mem rg id i hi))
      · obtain ⟨ev, hev, hlt2⟩ := hafter
        rw [loop_cons_none id sched g rest hh] at hev
        rcases List.mem_append.mp hev with hev1 | hev2
        · exfalso
          rw [groupEvents_fst g id ev hev1] at hlt2
          exact lt_asymm (hg1 rg hmem2) hlt2
        · have ihres := ih hg2 (fun g2 hg2m => hs g2 (List.mem_cons.mpr (Or.inr hg2m)))
            rg hmem2 ⟨ev, hev2, hlt2⟩
          refine ⟨?_, ihres.2⟩
          intro i hi
          rw [loop_cons_none id sched g rest hh]
          exact List.mem_append.mpr (Or.inr (ihres.1 i hi))

theorem loop_fail_bound (id : String) (sched : Int → List Nat) :
    ∀ l : List ReloaderGroup,
      l.Pairwise (fun x y => x.priority < y.priority) →
      (∀ rg ∈ l, (sched rg.priority).Perm (List.range rg.reloaders.length)) →
      ∀ rg ∈ l, groupFails rg id = true →
      ∀ ev ∈ (reloadGroupsLoop id sched l).1, ev.1 ≤ rg.priority := by
  intro l
  induction l with
  | nil => intro _ _ rg hmem; simp at hmem
  | cons g rest ih =>
    intro hlt hs rg hmem hf ev hev
    obtain ⟨hg1, hg2⟩ := List.pairwise_cons.mp hlt
    cases hh : firstError (g.reloaders.map (fun r => r id)) (sched g.priority) with
    | some e =>
      rw [loop_cons_some id sched g rest e hh] at hev
      rw [groupEvents_fst g id ev hev]
      rcases List.mem_cons.mp hmem with rfl | hmem2
      · exact le_refl _
      · exact le_of_lt (hg1 rg hmem2)
    | none =>
      have hgok : groupFails g id = false := (firstError_group_none_iff g id _
        (hs g (List.mem_cons.mpr (Or.inl rfl)))).mp hh
      rcases List.mem_cons.mp hmem with rfl | hmem2
      · rw [hgok] at hf
        cases hf
      · rw [loop_cons_none id sched g rest hh] at hev
        rcases List.mem_append.mp hev with hev1 | hev2
        · rw [groupEvents_fst g id ev hev1]
          exact le_of_lt (hg1 rg hmem2)
        · exact ih hg2 (fun g2 hg2m => hs g2 (List.mem_cons.mpr (Or.inr hg2m)))
            rg hmem2 hf ev hev2

/- Lemmas lifting the loop results to `reloadGroups` and `runLoop`. -/

theorem reloadGroups_run (m : Manager) (id : String) (iter : List ReloaderGroup)
    (sched : Int → List Nat) (hlock : m.lock = false) (hne : m.reloaders ≠ []) :
    reloadGroups m id iter sched
      = ({ m with lock := false },
         (reloadGroupsLoop id sched (sortByPriority iter)).1,
         (reloadGroupsLoop id sched (sortByPriority iter)).2) := by
  have h1 : m.reloaders.isEmpty = false := List.isEmpty_eq_false.mpr hne
  simp [reloadGroups, h1, hlock]

theorem goodMap_values_nodup (rs : List (Int × ReloaderGroup)) (h : GoodMap rs) :
    ((rs.map Prod.snd).map ReloaderGroup.priority).Nodup := by
  rw [List.map_map]
  have h2 : rs.map (ReloaderGroup.priority ∘ Prod.snd) = rs.map Prod.fst :=
    List.map_congr_left (fun kv hkv => h.2 kv hkv)
  rw [h2]
  exact h.1

theorem sortByPriority_lt (m : Manager) (iter : List ReloaderGroup)
    (hgm : GoodMap m.reloaders) (hiter : iter.Perm (m.reloaders.map Prod.snd)) :
    (sortByPriority iter).Pairwise (fun x y => x.priority < y.priority) := by
  apply pairwise_lt_of_sorted_nodup _ (sortByPriority_pairwise iter)
  have hperm : ((sortByPriority iter).map ReloaderGroup.priority).Perm
      ((m.reloaders.map Prod.snd).map ReloaderGroup.priority) :=
    ((sortByPriority_perm iter).trans hiter).map _
  exact hperm.nodup_iff.mpr (goodMap_values_nodup _ hgm)

theorem runLoop_signal_err (iter : List ReloaderGroup) (sched : Int → List Nat)
    (m : Manager) (id : String) (rest : List RunInput) (e : Err)
    (h : (reloadGroups m id iter sched).2.2 = some e) :
    runLoop iter sched m (RunInput.signal id none :: rest)
      = ((reloadGroups m id iter sched).2.1, some (some (Err.reloadProcessFailed e))) := by
  rcases hr : reloadGroups m id iter sched with ⟨m2, tr, er⟩
  rw [hr] at h
  obtain rfl : er = some e := h
  simp only [runLoop, hr]

theorem runLoop_signal_ok (iter : List ReloaderGroup) (sched : Int → List Nat)
    (m : Manager) (id : String) (rest : List RunInput)
    (h : (reloadGroups m id iter sched).2.2 = none) :
    runLoop iter sched m (RunInput.signal id none :: rest)
      = ((reloadGroups m id iter sched).2.1
           ++ (runLoop iter sched (reloadGroups m id iter sched).1 rest).1,
         (runLoop iter sched (reloadGroups m id iter sched).1 rest).2) := by
  rcases hr : reloadGroups m id iter sched with ⟨m2, tr, er⟩
  rw [hr] at h
  obtain rfl : er = none := h
  simp only [runLoop, hr]

/-- C1: for every registered set of reloader groups and every accepted trigger
id, a reload cycle executes the groups in strictly ascending priority order,
each group completing fully (all its reloaders invoked, none errored) before
the next group starts; if any reloader in a group fails, no reloader in any
strictly-higher-priority group is invoked for that cycle and `Run` terminates
with a non-nil error. The conjuncts state: (1) the trace's priorities are
monotone, so together with unique group priorities all events of a group are
contiguous and groups appear in ascending order; (2) any group followed by a
higher-priority event was fully invoked and error free; (3) on a fully
successful cycle every registered reloader was invoked; (4) if some
registered group contains a failing reloader, no event of a strictly higher
priority appears in the trace and the cycle errors; (5) a failing cycle makes
the run loop return immediately with the wrapped non-nil error. -/
theorem cycle_executes_groups_in_ascending_priority
    (m : Manager) (id : String) (iter : List ReloaderGroup) (sched : Int → List Nat)
    (hlock : m.lock = false)
    (hgm : GoodMap m.reloaders)
    (hiter : iter.Perm (m.reloaders.map Prod.snd))
    (hsched : ∀ rg ∈ m.reloaders.map Prod.snd,
      (sched rg.priority).Perm (List.range rg.reloaders.length)) :
    List.Pairwise (· ≤ ·) (((reloadGroups m id iter sched).2.1).map (fun ev => ev.1))
    ∧ (∀ rg ∈ m.reloaders.map Prod.snd,
        (∃ ev ∈ (reloadGroups m id iter sched).2.1, rg.priority < ev.1) →
        (∀ i, i < rg.reloaders.length →
            ((rg.priority, i, id) : Event) ∈ (reloadGroups m id iter sched).2.1)
          ∧ groupFails rg id = false)
    ∧ ((reloadGroups m id iter sched).2.2 = none →
        ∀ rg ∈ m.reloaders.map Prod.snd, ∀ i, i < rg.reloaders.length →
          ((rg.priority, i, id) : Event) ∈ (reloadGroups m id iter sched).2.1)
    ∧ (∀ rg ∈ m.reloaders.map Prod.snd, groupFails rg id = true →
        (∀ ev ∈ (reloadGroups m id iter sched).2.1, ev.1 ≤ rg.priority)
          ∧ (reloadGroups m id iter sched).2.2 ≠ none)
    ∧ (∀ e, (reloadGroups m id iter sched).2.2 = some e → ∀ rest,
        runLoop iter sched m (RunInput.signal id none :: rest)
          = ((reloadGroups m id iter sched).2.1,
             some (some (Err.reloadProcessFailed e)))) := by
  by_cases hne : m.reloaders = []
  · have he : reloadGroups m id iter sched = (m, [], none) := by
      simp [reloadGroups, hne]
    refine ⟨?_, ?_, ?_, ?_, ?_⟩ <;> simp [he, hne]
  · have hrun := reloadGroups_run m id iter sched hlock hne
    have h1 : (reloadGroups m id iter sched).2.1
        = (reloadGroupsLoop id sched (sortByPriority iter)).1 := by rw [hrun]
    have h2 : (reloadGroups m id iter sched).2.2
        = (reloadGroupsLoop id sched (sortByPriority iter)).2 := by rw [hrun]
    have hsortp : (sortByPriority iter).Perm (m.reloaders.map Prod.snd) :=
      (sortByPriority_perm iter).trans hiter
    have hlt := sortByPriority_lt m iter hgm hiter
    have hsched2 : ∀ rg ∈ sortByPriority iter,
        (sched rg.priority).Perm (List.range rg.reloaders.length) :=
      fun rg hrg => hsched rg (hsortp.mem_iff.mp hrg)
    refine ⟨?_, ?_, ?_, ?_, ?_⟩
    · rw [h1]
      exact loop_trace_pairwise id sched _ (sortByPriority_pairwise iter)
    · intro rg hrg hafter
      rw [h1] at hafter ⊢
      exact loop_complete id sched _ hlt hsched2 rg (hsortp.mem_iff.mpr hrg) hafter
    · intro hnone rg hrg i hi
      rw [h2] at hnone
      rw [h1]
      exact loop_none_complete id sched _ hnone rg (hsortp.mem_iff.mpr hrg) i hi
    · intro rg hrg hf
      constructor
      · intro ev hev
        rw [h1] at hev
        exact loop_fail_bound id sched _ hlt hsched2 rg (hsortp.mem_iff.mpr hrg) hf ev hev
      · intro hnone
        rw [h2] at hnone
        have hall := (loop_err_none_iff id sched _ hsched2).mp hnone rg (hsortp.mem_iff.mpr hrg)
        rw [hf] at hall
        cases hall
    · intro e he rest
      exact runLoop_signal_err iter sched m id rest e he

/- Concrete instances used by witnesses and counterexamples. -/

/-- A reloader that always succeeds. -/
def rA : Reloader := fun _ => none

/-- Another always-succeeding reloader. -/
def rB : Reloader := fun _ => none

/-- A reloader that always fails. -/
def rBad : Reloader := fun _ => some (Err.base "boom")

/-- A manager with two registered groups (priorities 5 and 0) and one
notifier. -/
def mTwo : Manager :=
  { reloaders := [((5 : Int), ⟨5, [rB]⟩), ((0 : Int), ⟨0, [rA]⟩)],
    notifiers := 1, lock := false }

/-- A materialisation of `mTwo`'s group map. -/
def iterTwo : List ReloaderGroup := [⟨5, [rB]⟩, ⟨0, [rA]⟩]

/-- An arrival order for singleton groups. -/
def schedOne : Int → List Nat := fun _ => [0]

theorem mTwo_goodMap : GoodMap mTwo.reloaders := by
  constructor
  · decide
  · intro kv hkv
    rcases List.mem_cons.mp hkv with rfl | h2
    · rfl
    · rcases List.mem_cons.mp h2 with rfl | h3
      · rfl
      · exact absurd h3 (List.not_mem_nil kv)

theorem iterTwo_perm : iterTwo.Perm (mTwo.reloaders.map Prod.snd) := List.Perm.refl _

theorem schedOne_perm : ∀ rg ∈ mTwo.reloaders.map Prod.snd,
    (schedOne rg.priority).Perm (List.range rg.reloaders.length) := by
  intro rg hrg
  rcases List.mem_cons.mp hrg with rfl | h2
  · exact List.Perm.refl _
  · rcases List.mem_cons.mp h2 with rfl | h3
    · exact List.Perm.refl _
    · exact absurd h3 (List.not_mem_nil rg)

/-- Witness for C1: the instantiated hypotheses hold for the concrete manager
`mTwo` and the cycle trace's priorities are monotone. -/
theorem cycle_executes_groups_in_ascending_priority_witness :
    mTwo.lock = false
    ∧ GoodMap mTwo.reloaders
    ∧ iterTwo.Perm (mTwo.reloaders.map Prod.snd)
    ∧ (∀ rg ∈ mTwo.reloaders.map Prod.snd,
        (schedOne rg.priority).Perm (List.range rg.reloaders.length))
    ∧ List.Pairwise (· ≤ ·)
        (((reloadGroups mTwo "t" iterTwo schedOne).2.1).map (fun ev => ev.1)) :=
  ⟨rfl, mTwo_goodMap, iterTwo_perm, schedOne_perm,
    (cycle_executes_groups_in_ascending_priority mTwo "t" iterTwo schedOne rfl
      mTwo_goodMap iterTwo_perm schedOne_perm).1⟩

/-- C9: for every Manager with zero registered reloader groups, a reload cycle
invoked with any trigger id returns nil and does nothing. -/
theorem no_reloader_groups_noop (nots : Nat) (lk : Bool) (id : String)
    (iter : List ReloaderGroup) (sched : Int → List Nat) :
    reloadGroups { reloaders := [], notifiers := nots, lock := lk } id iter sched
      = ({ reloaders := [], notifiers := nots, lock := lk }, [], none) := rfl

/-- C4: a signal consumed by `Run`'s main loop that carries a non-nil notifier
error makes the loop return immediately with that error wrapped as a notifier
failure, for any manager state (no cycle in progress needed, any registered
reloaders) and regardless of later observations. -/
theorem notifier_error_aborts_run (iter : List ReloaderGroup) (sched : Int → List Nat)
    (m : Manager) (id : String) (e : Err) (rest : List RunInput) :
    runLoop iter sched m (RunInput.signal id (some e) :: rest)
      = ([], some (some (Err.notifierFailed e))) := rfl

/-- C6: observing cancellation in `Run`'s waiting loop makes the loop return
nil (a clean, non-error shutdown), for any manager state. -/
theorem cancellation_returns_nil (iter : List ReloaderGroup) (sched : Int → List Nat)
    (m : Manager) (rest : List RunInput) :
    runLoop iter sched m (RunInput.cancelled :: rest) = ([], some none) := rfl

/-- C3: a reload-cycle call made while another cycle holds the trylock (lock
set, groups registered) fails the compare-and-swap and returns nil immediately
with no reloader invocation and no state change; a call that acquires the
trylock (lock clear) leaves the lock released when the cycle finishes, on both
the success and the failure path. -/
theorem trylock_busy_drop_and_release (m : Manager) (id : String)
    (iter : List ReloaderGroup) (sched : Int → List Nat)
    (hne : m.reloaders ≠ []) :
    (m.lock = true → reloadGroups m id iter sched = (m, [], none))
    ∧ (m.lock = false → (reloadGroups m id iter sched).1.lock = false) := by
  have h1 : m.reloaders.isEmpty = false := List.isEmpty_eq_false.mpr hne
  constructor
  · intro hl
    simp [reloadGroups, h1, hl]
  · intro hl
    simp [reloadGroups, h1, hl]

/-- A locked variant of `mTwo` (a cycle is in flight). -/
def mTwoLocked : Manager := { mTwo with lock := true }

/-- Witness for C3: at the concrete manager, the busy call is a silent no-op
and the acquiring call ends with the lock released. -/
theorem trylock_busy_drop_and_release_witness :
    mTwoLocked.reloaders ≠ []
    ∧ reloadGroups mTwoLocked "t" iterTwo schedOne = (mTwoLocked, [], none)
    ∧ (reloadGroups mTwo "t" iterTwo schedOne).1.lock = false :=
  ⟨List.cons_ne_nil _ _,
    (trylock_busy_drop_and_release mTwoLocked "t" iterTwo schedOne
      (List.cons_ne_nil _ _)).1 rfl,
    (trylock_busy_drop_and_release mTwo "t" iterTwo schedOne
      (List.cons_ne_nil _ _)).2 rfl⟩

/-- C5: whenever some registered group contains a reloader failing on the
trigger id, the cycle returns an error wrapping an underlying reloader error
together with the failing group's priority, and the run loop returns
immediately with that error further wrapped as a reload-process failure. -/
theorem reloader_error_wrapped_with_priority
    (m : Manager) (id : String) (iter : List ReloaderGroup) (sched : Int → List Nat)
    (hlock : m.lock = false)
    (hiter : iter.Perm (m.reloaders.map Prod.snd))
    (hsched : ∀ rg ∈ m.reloaders.map Prod.snd,
      (sched rg.priority).Perm (List.range rg.reloaders.length))
    (hfail : ∃ rg ∈ m.reloaders.map Prod.snd, groupFails rg id = true) :
    ∃ p e,
      (∃ rg ∈ m.reloaders.map Prod.snd, rg.priority = p ∧ ∃ r ∈ rg.reloaders, r id = some e)
      ∧ (reloadGroups m id iter sched).2.2 = some (Err.groupPriority p e)
      ∧ ∀ rest, runLoop iter sched m (RunInput.signal id none :: rest)
          = ((reloadGroups m id iter sched).2.1,
             some (some (Err.reloadProcessFailed (Err.groupPriority p e)))) := by
  obtain ⟨rg0, hrg0, hf0⟩ := hfail
  have hne : m.reloaders ≠ [] := by
    intro h0
    rw [h0] at hrg0
    simp at hrg0
  have hrun := reloadGroups_run m id iter sched hlock hne
  have h2 : (reloadGroups m id iter sched).2.2
      = (reloadGroupsLoop id sched (sortByPriority iter)).2 := by rw [hrun]
  have hsortp : (sortByPriority iter).Perm (m.reloaders.map Prod.snd) :=
    (sortByPriority_perm iter).trans hiter
  have hsched2 : ∀ rg ∈ sortByPriority iter,
      (sched rg.priority).Perm (List.range rg.reloaders.length) :=
    fun rg hrg => hsched rg (hsortp.mem_iff.mp hrg)
  have hnn : (reloadGroupsLoop id sched (sortByPriority iter)).2 ≠ none := by
    intro hnone
    have hall := (loop_err_none_iff id sched _ hsched2).mp hnone rg0 (hsortp.mem_iff.mpr hrg0)
    rw [hf0] at hall
    cases hall
  cases her : (reloadGroupsLoop id sched (sortByPriority iter)).2 with
  | none => exact absurd her hnn
  | some er =>
    obtain ⟨p, e, rfl, rg2, hrg2, hp2, r, hr, hre⟩ := loop_err_elim id sched _ hsched2 er her
    refine ⟨p, e, ⟨rg2, hsortp.mem_iff.mp hrg2, hp2, r, hr, hre⟩, ?_, ?_⟩
    · rw [h2, her]
    · intro rest
      exact runLoop_signal_err iter sched m id rest _ (by rw [h2, her])

/-- A manager with a single failing reloader at priority 0. -/
def mFail : Manager :=
  { reloaders := [((0 : Int), ⟨0, [rBad]⟩)], notifiers := 1, lock := false }

/-- A materialisation of `mFail`'s group map. -/
def iterFail : List ReloaderGroup := [⟨0, [rBad]⟩]

/-- Witness for C5: the instantiated hypotheses hold for the concrete failing
manager and the existence statement holds there. -/
theorem reloader_error_wrapped_with_priority_witness :
    mFail.lock = false
    ∧ iterFail.Perm (mFail.reloaders.map Prod.snd)
    ∧ (∃ rg ∈ mFail.reloaders.map Prod.snd, groupFails rg "t" = true)
    ∧ ∃ p e,
        (∃ rg ∈ mFail.reloaders.map Prod.snd,
          rg.priority = p ∧ ∃ r ∈ rg.reloaders, r "t" = some e)
        ∧ (reloadGroups mFail "t" iterFail schedOne).2.2 = some (Err.groupPriority p e)
        ∧ ∀ rest, runLoop iterFail schedOne mFail (RunInput.signal "t" none :: rest)
            = ((reloadGroups mFail "t" iterFail schedOne).2.1,
               some (some (Err.reloadProcessFailed (Err.groupPriority p e)))) := by
  have hs : ∀ rg ∈ mFail.reloaders.map Prod.snd,
      (schedOne rg.priority).Perm (List.range rg.reloaders.length) := by
    intro rg hrg
    rcases List.mem_cons.mp hrg with rfl | h2
    · exact List.Perm.refl _
    · exact absurd h2 (List.not_mem_nil rg)
  have hf : ∃ rg ∈ mFail.reloaders.map Prod.snd, groupFails rg "t" = true :=
    ⟨⟨0, [rBad]⟩, List.mem_cons.mpr (Or.inl rfl), rfl⟩
  exact ⟨rfl, List.Perm.refl _, hf,
    reloader_error_wrapped_with_priority mFail "t" iterFail schedOne rfl
      (List.Perm.refl _) hs hf⟩

/- C7: the code has no special case for an empty trigger id. -/

/-- A manager with a single succeeding reloader at priority 0 and one
notifier. -/
def mOne : Manager :=
  { reloaders := [((0 : Int), ⟨0, [rA]⟩)], notifiers := 1, lock := false }

/-- A materialisation of `mOne`'s group map. -/
def iterOne : List ReloaderGroup := [⟨0, [rA]⟩]

/-- Counterexample for C7: when the run loop consumes a signal carrying an
empty trigger id and a nil error, a reload of the registered reloaders does
take place: the trace of reloader invocations is non-empty (the registered
reloader is invoked with the empty id). -/
theorem empty_id_signal_triggers_reload_cex :
    (runLoop iterOne schedOne mOne [RunInput.signal "" none]).1 = [((0 : Int), 0, "")]
    ∧ (runLoop iterOne schedOne mOne [RunInput.signal "" none]).1 ≠ [] :=
  ⟨rfl, by decide⟩

/-- C7 amended: a notifier may return an empty trigger id with a nil error,
but `Run` does not special-case it: consuming such a signal invokes a normal
reload cycle with the empty trigger id, so every registered reloader is
invoked with the empty id (stated here for cycles whose groups all succeed on
the empty id). -/
theorem empty_id_signal_runs_cycle
    (m : Manager) (iter : List ReloaderGroup) (sched : Int → List Nat) (rest : List RunInput)
    (hlock : m.lock = false)
    (hiter : iter.Perm (m.reloaders.map Prod.snd))
    (hsched : ∀ rg ∈ m.reloaders.map Prod.snd,
      (sched rg.priority).Perm (List.range rg.reloaders.length))
    (hok : ∀ rg ∈ m.reloaders.map Prod.snd, groupFails rg "" = false) :
    ∀ rg ∈ m.reloaders.map Prod.snd, ∀ i, i < rg.reloaders.length →
      ((rg.priority, i, "") : Event)
        ∈ (runLoop iter sched m (RunInput.signal "" none :: rest)).1 := by
  intro rg hrg i hi
  have hne : m.reloaders ≠ [] := by
    intro h0
    rw [h0] at hrg
    simp at hrg
  have hrun := reloadGroups_run m "" iter sched hlock hne
  have h1 : (reloadGroups m "" iter sched).2.1
      = (reloadGroupsLoop "" sched (sortByPriority iter)).1 := by rw [hrun]
  have h2 : (reloadGroups m "" iter sched).2.2
      = (reloadGroupsLoop "" sched (sortByPriority iter)).2 := by rw [hrun]
  have hsortp : (sortByPriority iter).Perm (m.reloaders.map Prod.snd) :=
    (sortByPriority_perm iter).trans hiter
  have hsched2 : ∀ g ∈ sortByPriority iter,
      (sched g.priority).Perm (List.range g.reloaders.length) :=
    fun g hg => hsched g (hsortp.mem_iff.mp hg)
  have hnone : (reloadGroups m "" iter sched).2.2 = none := by
    rw [h2]
    exact (loop_err_none_iff "" sched _ hsched2).mpr
      (fun g hg => hok g (hsortp.mem_iff.mp hg))
  rw [runLoop_signal_ok iter sched m "" rest hnone]
  apply List.mem_append.mpr
  left
  rw [h1]
  exact loop_none_complete "" sched _ (h2 ▸ hnone) rg (hsortp.mem_iff.mpr hrg) i hi

/-- Witness for C7's amended claim: for the concrete one-reloader manager, the
reloader is invoked with the empty trigger id. -/
theorem empty_id_signal_runs_cycle_witness :
    mOne.lock = false
    ∧ (∀ rg ∈ mOne.reloaders.map Prod.snd, groupFails rg "" = false)
    ∧ ((0 : Int), 0, "") ∈ (runLoop iterOne schedOne mOne [RunInput.signal "" none]).1 := by
  have hs : ∀ rg ∈ mOne.reloaders.map Prod.snd,
      (schedOne rg.priority).Perm (List.range rg.reloaders.length) := by
    intro rg hrg
    rcases List.mem_cons.mp hrg with rfl | h2
    · exact List.Perm.refl _
    · exact absurd h2 (List.not_mem_nil rg)
  have hok : ∀ rg ∈ mOne.reloaders.map Prod.snd, groupFails rg "" = false := by
    intro rg hrg
    rcases List.mem_cons.mp hrg with rfl | h2
    · rfl
    · exact absurd h2 (List.not_mem_nil rg)
  exact ⟨rfl, hok,
    empty_id_signal_runs_cycle mOne iterOne schedOne [] rfl (List.Perm.refl _) hs hok
      ⟨0, [rA]⟩ (List.mem_cons.mpr (Or.inl rfl)) 0 (by decide)⟩

/-- C8: each invocation of the channel-based notifier adapter performs exactly
one blocking receive: on a channel whose next value is `v`, it consumes
exactly that value and returns it as the trigger id together with a nil error
(so a delivered result never carries a non-nil error). -/
theorem notifier_chan_receive (ch : NotifierChan) (v : String) (rest : List String)
    (h : ch = v :: rest) :
    NotifierChan.Notify ch = some ((v, none), rest) := by
  subst h
  rfl

/-- Witness for C8 at a concrete channel. -/
theorem notifier_chan_receive_witness :
    (["x", "y"] : NotifierChan) = "x" :: ["y"]
    ∧ NotifierChan.Notify ["x", "y"] = some (("x", none), ["y"]) :=
  ⟨rfl, notifier_chan_receive ["x", "y"] "x" ["y"] rfl⟩


/- Lemmas about the association-list embedding of the Go priority map. -/

theorem mapGet_mapSet_same (p : Int) (rg : ReloaderGroup) :
    ∀ rs : List (Int × ReloaderGroup), mapGet (mapSet rs p rg) p = some rg := by
  intro rs
  induction rs with
  | nil => simp [mapGet, mapSet]
  | cons kv rest ih =>
    by_cases hk : kv.1 = p
    · simp [mapGet, mapSet, hk]
    · simp [mapGet, mapSet, hk, ih]

theorem mapGet_mapSet_other (p q : Int) (rg : ReloaderGroup) (hqp : q ≠ p) :
    ∀ rs : List (Int × ReloaderGroup), mapGet (mapSet rs p rg) q = mapGet rs q := by
  intro rs
  induction rs with
  | nil => simp [mapGet, mapSet, Ne.symm hqp]
  | cons kv rest ih =>
    by_cases hk : kv.1 = p
    · simp [mapGet, mapSet, hk, Ne.symm hqp, hqp]
    · by_cases hkq : kv.1 = q
      · simp [mapGet, mapSet, hk, hkq, hqp, Ne.symm hqp]
      · simp [mapGet, mapSet, hk, hkq, hqp, Ne.symm hqp, ih]

theorem mapSet_keys (p : Int) (rg : ReloaderGroup) :
    ∀ rs : List (Int × ReloaderGroup),
      (mapSet rs p rg).map Prod.fst
        = if (mapGet rs p).isNone then rs.map Prod.fst ++ [p] else rs.map Prod.fst := by
  intro rs
  induction rs with
  | nil => simp [mapGet, mapSet]
  | cons kv rest ih =>
    by_cases hk : kv.1 = p
    · simp [mapGet, mapSet, hk]
    · simp only [mapSet, mapGet, beq_iff_eq, if_neg hk, List.map_cons, ih]
      cases hrest : (mapGet rest p).isNone with
      | true => simp [hrest]
      | false => simp [hrest]

theorem mapGet_none_not_mem (p : Int) :
    ∀ rs : List (Int × ReloaderGroup), mapGet rs p = none → p ∉ rs.map Prod.fst := by
  intro rs
  induction rs with
  | nil => intro _ h; simp at h
  | cons kv rest ih =>
    intro hget hmem
    by_cases hk : kv.1 = p
    · simp [mapGet, hk] at hget
    · simp only [mapGet, beq_iff_eq, if_neg hk] at hget
      rcases List.mem_cons.mp hmem with h1 | h2
      · exact hk h1.symm
      · exact ih hget h2

theorem mapGet_inv (p : Int) (g : ReloaderGroup) :
    ∀ rs : List (Int × ReloaderGroup), mapGet rs p = some g →
      ∃ kv ∈ rs, kv.1 = p ∧ kv.2 = g := by
  intro rs
  induction rs with
  | nil => intro h; simp [mapGet] at h
  | cons kv rest ih =>
    intro h
    by_cases hk : kv.1 = p
    · simp only [mapGet, beq_iff_eq, if_pos hk] at h
      exact ⟨kv, List.mem_cons.mpr (Or.inl rfl), hk, Option.some.inj h⟩
    · simp only [mapGet, beq_iff_eq, if_neg hk] at h
      obtain ⟨kv2, hkv2, hp2, hg2⟩ := ih h
      exact ⟨kv2, List.mem_cons.mpr (Or.inr hkv2), hp2, hg2⟩

theorem mapSet_mem (p : Int) (rg : ReloaderGroup) :
    ∀ rs : List (Int × ReloaderGroup), ∀ kv ∈ mapSet rs p rg,
      kv = (p, rg) ∨ kv ∈ rs := by
  intro rs
  induction rs with
  | nil =>
    intro kv hkv
    simp only [mapSet] at hkv
    exact Or.inl (List.mem_singleton.mp hkv)
  | cons kv0 rest ih =>
    intro kv hkv
    by_cases hk : kv0.1 = p
    · simp only [mapSet, beq_iff_eq, if_pos hk] at hkv
      rcases List.mem_cons.mp hkv with h1 | h2
      · exact Or.inl h1
      · exact Or.inr (List.mem_cons.mpr (Or.inr h2))
    · simp only [mapSet, beq_iff_eq, if_neg hk] at hkv
      rcases List.mem_cons.mp hkv with h1 | h2
      · exact Or.inr (List.mem_cons.mpr (Or.inl h1))
      · rcases ih kv h2 with h3 | h3
        · exact Or.inl h3
        · exact Or.inr (List.mem_cons.mpr (Or.inr h3))

theorem add_group_priority (rs : List (Int × ReloaderGroup)) (p : Int)
    (h2 : ∀ kv ∈ rs, kv.2.priority = kv.1) :
    ((mapGet rs p).getD { priority := p, reloaders := [] }).priority = p := by
  cases hg : mapGet rs p with
  | none => rfl
  | some g =>
    obtain ⟨kv, hkv, hk1, hk2⟩ := mapGet_inv p g rs hg
    simp only [Option.getD_some]
    rw [← hk2, h2 kv hkv, hk1]

theorem add_reloaders_eq (m : Manager) (p : Int) (r : Reloader) :
    (m.Add p r).reloaders
      = mapSet m.reloaders p
          ⟨((mapGet m.reloaders p).getD { priority := p, reloaders := [] }).priority,
           ((mapGet m.reloaders p).getD { priority := p, reloaders := [] }).reloaders ++ [r]⟩ :=
  rfl

theorem add_goodMap (m : Manager) (p : Int) (r : Reloader) (h : GoodMap m.reloaders) :
    GoodMap (m.Add p r).reloaders := by
  obtain ⟨h1, h2⟩ := h
  have hpr := add_group_priority m.reloaders p h2
  constructor
  · rw [add_reloaders_eq, mapSet_keys]
    by_cases hget : mapGet m.reloaders p = none
    · rw [if_pos (Option.isNone_iff_eq_none.mpr hget), List.nodup_append]
      refine ⟨h1, List.nodup_singleton p, ?_⟩
      intro a ha hb
      rw [List.mem_singleton.mp hb] at ha
      exact mapGet_none_not_mem p _ hget ha
    · rw [if_neg (fun hc => hget (Option.isNone_iff_eq_none.mp hc))]
      exact h1
  · intro kv hkv
    rw [add_reloaders_eq] at hkv
    rcases mapSet_mem p _ m.reloaders kv hkv with rfl | hin
    · exact hpr
    · exact h2 kv hin

/-- The member reloaders stored under priority key `p` (empty when the key is
absent). -/
def membersOf (rs : List (Int × ReloaderGroup)) (p : Int) : List Reloader :=
  match mapGet rs p with
  | some g => g.reloaders
  | none => []

theorem membersOf_add_same (m : Manager) (p : Int) (r : Reloader) :
    membersOf (m.Add p r).reloaders p = membersOf m.reloaders p ++ [r] := by
  cases hg : mapGet m.reloaders p with
  | none => simp [membersOf, add_reloaders_eq, mapGet_mapSet_same, hg]
  | some g => simp [membersOf, add_reloaders_eq, mapGet_mapSet_same, hg]

theorem membersOf_add_other (m : Manager) (p q : Int) (r : Reloader) (hqp : q ≠ p) :
    membersOf (m.Add p r).reloaders q = membersOf m.reloaders q := by
  simp only [membersOf, add_reloaders_eq, mapGet_mapSet_other p q _ hqp]

theorem addAll_cons (m : Manager) (c : Int × Reloader) (cs : List (Int × Reloader)) :
    addAll m (c :: cs) = addAll (m.Add c.1 c.2) cs := rfl

theorem addAll_members (p : Int) :
    ∀ calls : List (Int × Reloader), ∀ m : Manager,
      membersOf (addAll m calls).reloaders p
        = membersOf m.reloaders p ++ addedWith p calls := by
  intro calls
  induction calls with
  | nil => intro m; simp [addAll, addedWith]
  | cons c cs ih =>
    intro m
    rw [addAll_cons, ih (m.Add c.1 c.2)]
    by_cases hc : c.1 = p
    · have h1 : addedWith p (c :: cs) = c.2 :: addedWith p cs := by
        simp [addedWith, hc]
      rw [h1, hc, membersOf_add_same, List.append_assoc, List.singleton_append]
    · have h1 : addedWith p (c :: cs) = addedWith p cs := by
        simp [addedWith, hc]
      rw [h1, membersOf_add_other m c.1 p c.2 (fun h => hc h.symm)]

theorem addAll_goodMap :
    ∀ calls : List (Int × Reloader), ∀ m : Manager,
      GoodMap m.reloaders → GoodMap (addAll m calls).reloaders := by
  intro calls
  induction calls with
  | nil => intro m h; exact h
  | cons c cs ih =>
    intro m h
    rw [addAll_cons]
    exact ih _ (add_goodMap m c.1 c.2 h)

/-- C10: after every finite sequence of `Add` calls starting from a fresh
manager, the group map is a genuine map (unique priority keys), every stored
group's priority field equals its key, and the member sequence under key `p`
is exactly the reloaders added with priority `p` in the order of the `Add`
calls (so `Add` never removes, reorders, or touches other priorities). -/
theorem add_builds_priority_groups (calls : List (Int × Reloader)) :
    GoodMap (addAll NewManager calls).reloaders
    ∧ ∀ p rg, mapGet (addAll NewManager calls).reloaders p = some rg →
        rg.priority = p ∧ rg.reloaders = addedWith p calls := by
  have hgm0 : GoodMap NewManager.reloaders := by
    constructor
    · exact List.nodup_nil
    · intro kv hkv
      simp [NewManager] at hkv
  have hgm := addAll_goodMap calls NewManager hgm0
  refine ⟨hgm, ?_⟩
  intro p rg hget
  obtain ⟨kv, hkv, hk1, hk2⟩ := mapGet_inv p rg _ hget
  constructor
  · rw [← hk2, hgm.2 kv hkv, hk1]
  · have hm := addAll_members p calls NewManager
    have hv : membersOf (addAll NewManager calls).reloaders p = rg.reloaders := by
      simp [membersOf, hget]
    rw [hv] at hm
    rw [hm]
    simp [membersOf, NewManager, mapGet]

/-- Witness for C10 at a concrete call sequence: two reloaders added with
priority 5 around one with priority 0 end up, in order, as the members of the
priority-5 group. -/
theorem add_builds_priority_groups_witness :
    mapGet (addAll NewManager [((5 : Int), rA), ((0 : Int), rB), ((5 : Int), rBad)]).reloaders 5
      = some ⟨5, [rA, rBad]⟩
    ∧ (ReloaderGroup.mk 5 [rA, rBad]).priority = 5
    ∧ (ReloaderGroup.mk 5 [rA, rBad]).reloaders
        = addedWith 5 [((5 : Int), rA), ((0 : Int), rB), ((5 : Int), rBad)] :=
  ⟨rfl, (add_builds_priority_groups [((5 : Int), rA), ((0 : Int), rB), ((5 : Int), rBad)]).2
      5 ⟨5, [rA, rBad]⟩ rfl⟩

/- A small-step model of `Run` with its buffered signal channel, used to
examine what happens to a trigger that arrives while a reload cycle is in
flight. -/

/-- A notifier result as delivered on the signal channel. -/
structure Signal where
  id : String
  err : Option Err
deriving DecidableEq

/-- The control state of `Run`'s main loop. -/
inductive Phase where
  | waiting : Phase
  | cycling : Signal → Phase
  | terminated : Option Err → Phase
deriving DecidableEq

/-- The state of a running manager: the manager itself, the buffered signal
channel contents, the loop's control state, and the trace of reloader
invocations so far. -/
structure SysState where
  mgr : Manager
  queue : List Signal
  phase : Phase
  trace : List Event

/-- One interleaving step of the system: a notifier worker delivers a result
into the buffered channel (capacity = number of notifiers) at any time; the
main loop receives a signal when waiting (terminating on a notifier error, or
starting a reload cycle); an in-flight cycle finishes by running
`reloadGroups`; or cancellation is observed while waiting. -/
inductive Step (iter : List ReloaderGroup) (sched : Int → List Nat) :
    SysState → SysState → Prop where
  | emit (s : SysState) (sig : Signal) (hroom : s.queue.length < s.mgr.notifiers) :
      Step iter sched s { s with queue := s.queue ++ [sig] }
  | receiveErr (s : SysState) (sig : Signal) (rest : List Signal) (e : Err)
      (hq : s.queue = sig :: rest) (hw : s.phase = Phase.waiting) (he : sig.err = some e) :
      Step iter sched s
        { s with queue := rest, phase := Phase.terminated (some (Err.notifierFailed e)) }
  | receiveOk (s : SysState) (sig : Signal) (rest : List Signal)
      (hq : s.queue = sig :: rest) (hw : s.phase = Phase.waiting) (he : sig.err = none) :
      Step iter sched s { s with queue := rest, phase := Phase.cycling sig }
  | finishCycle (s : SysState) (sig : Signal) (hc : s.phase = Phase.cycling sig) :
      Step iter sched s
        { mgr := (reloadGroups s.mgr sig.id iter sched).1,
          queue := s.queue,
          phase :=
            match (reloadGroups s.mgr sig.id iter sched).2.2 with
            | some e => Phase.terminated (some (Err.reloadProcessFailed e))
            | none => Phase.waiting,
          trace := s.trace ++ (reloadGroups s.mgr sig.id iter sched).2.1 }
  | cancel (s : SysState) (hw : s.phase = Phase.waiting) :
      Step iter sched s { s with phase := Phase.terminated none }

/-- The first trigger. -/
def sigA : Signal := ⟨"a", none⟩

/-- The second trigger, delivered while the cycle for `sigA` is in flight. -/
def sigB : Signal := ⟨"b", none⟩

/-- Initial state: one-reloader manager, empty channel, loop waiting. -/
def stA0 : SysState := ⟨mOne, [], Phase.waiting, []⟩

/-- After the notifier delivers the first trigger. -/
def stA1 : SysState := ⟨mOne, [sigA], Phase.waiting, []⟩

/-- The loop received the first trigger and its cycle is in flight. -/
def stA2 : SysState := ⟨mOne, [], Phase.cycling sigA, []⟩

/-- The second trigger arrived while the first cycle is in flight: it is
buffered on the signal channel, not dropped. -/
def stA3 : SysState := ⟨mOne, [sigB], Phase.cycling sigA, []⟩

/-- The first cycle finished; the second trigger is still queued. -/
def stA4 : SysState := ⟨mOne, [sigB], Phase.waiting, [((0 : Int), 0, "a")]⟩

/-- The loop received the queued second trigger and starts a cycle for it. -/
def stA5 : SysState := ⟨mOne, [], Phase.cycling sigB, [((0 : Int), 0, "a")]⟩

/-- The second cycle finished: the reloader was invoked for the second
trigger. -/
def stA6 : SysState :=
  ⟨mOne, [], Phase.waiting, [((0 : Int), 0, "a"), ((0 : Int), 0, "b")]⟩

/-- C2 (failing execution): with one registered reloader and one notifier, a
second trigger delivered while the cycle for the first trigger is in flight
(the `emit` step taken from `stA2`, whose phase is `cycling sigA`) is buffered
in the signal channel and, after the first cycle completes, the loop receives
it and runs a full reload cycle for it: the final trace contains a reloader
invocation carrying the second trigger's id. The trigger is queued, not
dropped. -/
theorem second_trigger_during_cycle_is_reloaded :
    Step iterOne schedOne stA0 stA1
    ∧ Step iterOne schedOne stA1 stA2
    ∧ stA2.phase = Phase.cycling sigA
    ∧ Step iterOne schedOne stA2 stA3
    ∧ Step iterOne schedOne stA3 stA4
    ∧ Step iterOne schedOne stA4 stA5
    ∧ Step iterOne schedOne stA5 stA6
    ∧ ((0, 0, "b") : Event) ∈ stA6.trace :=
  ⟨Step.emit stA0 sigA (by decide),
   Step.receiveOk stA1 sigA [] rfl rfl rfl,
   rfl,
   Step.emit stA2 sigB (by decide),
   Step.finishCycle stA3 sigA rfl,
   Step.receiveOk stA4 sigB [] rfl rfl rfl,
   Step.finishCycle stA5 sigB rfl,
   by decide⟩
